import Mathlib

/-!
Verification of the identifier-shortening cache and filter compiler of the
outlook-mcp server (src/server.py), as a shallow embedding in Lean 4.

Bytes are modelled as natural numbers below 256, 32-bit machine words as
natural numbers reduced modulo 2^32 at every arithmetic step.
-/

set_option maxRecDepth 100000

namespace OutlookMCP

/-! ## SHA-256 (models hashlib.sha256, used by _hash_id) -/

def M32 : Nat := 4294967296

def rotr32 (n x : Nat) : Nat := ((x >>> n) ||| (x <<< (32 - n))) % M32

/-- The 64 round constants of FIPS 180-4, written in decimal. -/
def sha256K : List Nat :=
  [1116352408, 1899447441, 3049323471, 3921009573, 961987163, 1508970993,
   2453635748, 2870763221, 3624381080, 310598401, 607225278, 1426881987,
   1925078388, 2162078206, 2614888103, 3248222580, 3835390401, 4022224774,
   264347078, 604807628, 770255983, 1249150122, 1555081692, 1996064986,
   2554220882, 2821834349, 2952996808, 3210313671, 3336571891, 3584528711,
   113926993, 338241895, 666307205, 773529912, 1294757372, 1396182291,
   1695183700, 1986661051, 2177026350, 2456956037, 2730485921, 2820302411,
   3259730800, 3345764771, 3516065817, 3600352804, 4094571909, 275423344,
   430227734, 506948616, 659060556, 883997877, 958139571, 1322822218,
   1537002063, 1747873779, 1955562222, 2024104815, 2227730452, 2361852424,
   2428436474, 2756734187, 3204031479, 3329325298]

structure SHAState where
  h0 : Nat
  h1 : Nat
  h2 : Nat
  h3 : Nat
  h4 : Nat
  h5 : Nat
  h6 : Nat
  h7 : Nat
deriving DecidableEq

/-- The eight initial hash values of FIPS 180-4, written in decimal. -/
def shaInit : SHAState :=
  ⟨1779033703, 3144134277, 1013904242, 2773480762,
   1359893119, 2600822924, 528734635, 1541459225⟩

/-- One step of the SHA-256 message-schedule extension; `acc` holds the words
produced so far in reverse order (head is the most recent word). -/
def scheduleStep (acc : List Nat) : List Nat :=
  let w2 := acc.getD 1 0
  let w7 := acc.getD 6 0
  let w15 := acc.getD 14 0
  let w16 := acc.getD 15 0
  let s0 := rotr32 7 w15 ^^^ rotr32 18 w15 ^^^ (w15 >>> 3)
  let s1 := rotr32 17 w2 ^^^ rotr32 19 w2 ^^^ (w2 >>> 10)
  ((s1 + w7 + s0 + w16) % M32) :: acc

def scheduleAux : Nat → List Nat → List Nat
  | 0, acc => acc
  | n + 1, acc => scheduleAux n (scheduleStep acc)

/-- Extend the 16 words of a block to the 64-word message schedule. -/
def schedule (ws : List Nat) : List Nat :=
  (scheduleAux 48 ws.reverse).reverse

/-- One SHA-256 compression round, consuming a (key constant, schedule word) pair. -/
def shaRound (st : SHAState) (kw : Nat × Nat) : SHAState :=
  let e := st.h4
  let a := st.h0
  let s1 := rotr32 6 e ^^^ rotr32 11 e ^^^ rotr32 25 e
  let ch := (e &&& st.h5) ^^^ ((e ^^^ 0xffffffff) &&& st.h6)
  let t1 := (st.h7 + s1 + ch + kw.1 + kw.2) % M32
  let s0 := rotr32 2 a ^^^ rotr32 13 a ^^^ rotr32 22 a
  let maj := (a &&& st.h1) ^^^ (a &&& st.h2) ^^^ (st.h1 &&& st.h2)
  let t2 := (s0 + maj) % M32
  ⟨(t1 + t2) % M32, a, st.h1, st.h2, (st.h3 + t1) % M32, e, st.h5, st.h6⟩

/-- Compress one 512-bit block (given as 16 words) into the running state. -/
def shaCompress (st : SHAState) (ws : List Nat) : SHAState :=
  let f := (List.zip sha256K (schedule ws)).foldl shaRound st
  ⟨(st.h0 + f.h0) % M32, (st.h1 + f.h1) % M32, (st.h2 + f.h2) % M32,
   (st.h3 + f.h3) % M32, (st.h4 + f.h4) % M32, (st.h5 + f.h5) % M32,
   (st.h6 + f.h6) % M32, (st.h7 + f.h7) % M32⟩

def bytesToWords : List Nat → List Nat
  | b0 :: b1 :: b2 :: b3 :: rest =>
      ((b0 <<< 24) ||| (b1 <<< 16) ||| (b2 <<< 8) ||| b3) :: bytesToWords rest
  | _ => []

/-- Split a word list into consecutive groups of 16 (one SHA-256 block each);
a trailing group shorter than 16 words is dropped (padding never produces one). -/
def chunk16 : List Nat → List (List Nat)
  | w0 :: w1 :: w2 :: w3 :: w4 :: w5 :: w6 :: w7 ::
    w8 :: w9 :: w10 :: w11 :: w12 :: w13 :: w14 :: w15 :: rest =>
      [w0, w1, w2, w3, w4, w5, w6, w7, w8, w9, w10, w11, w12, w13, w14, w15] ::
      chunk16 rest
  | _ => []

def processBlocks (st : SHAState) (bytes : List Nat) : SHAState :=
  (chunk16 (bytesToWords bytes)).foldl shaCompress st

/-- Big-endian byte expansion into exactly `n` bytes. -/
def toBytesBE : Nat → Nat → List Nat
  | 0, _ => []
  | n + 1, x => toBytesBE n (x >>> 8) ++ [x % 256]

/-- SHA-256 padding: append 0x80, zeros, and the 64-bit big-endian bit length. -/
def sha256Pad (msg : List Nat) : List Nat :=
  let l := msg.length
  let k := (119 - l % 64) % 64
  msg ++ 0x80 :: (List.replicate k 0 ++ toBytesBE 8 (8 * l))

/-- SHA-256 digest of a byte sequence, as its list of 32 digest bytes. -/
def sha256 (msg : List Nat) : List Nat :=
  let st := processBlocks shaInit (sha256Pad msg)
  toBytesBE 4 st.h0 ++ toBytesBE 4 st.h1 ++ toBytesBE 4 st.h2 ++ toBytesBE 4 st.h3 ++
  toBytesBE 4 st.h4 ++ toBytesBE 4 st.h5 ++ toBytesBE 4 st.h6 ++ toBytesBE 4 st.h7

/-! ## UTF-8 encoding (models str.encode()) -/

def utf8Char (c : Char) : List Nat :=
  let n := c.toNat
  if n < 0x80 then [n]
  else if n < 0x800 then [0xc0 ||| (n >>> 6), 0x80 ||| (n &&& 0x3f)]
  else if n < 0x10000 then
    [0xe0 ||| (n >>> 12), 0x80 ||| ((n >>> 6) &&& 0x3f), 0x80 ||| (n &&& 0x3f)]
  else
    [0xf0 ||| (n >>> 18), 0x80 ||| ((n >>> 12) &&& 0x3f),
     0x80 ||| ((n >>> 6) &&& 0x3f), 0x80 ||| (n &&& 0x3f)]

def utf8Bytes (s : String) : List Nat :=
  (s.data.map utf8Char).flatten

/-! ## _hash_id (src/server.py lines 173-182) -/

def base36Chars : List Char := "0123456789abcdefghijklmnopqrstuvwxyz".data

/-- C-style port of src/server.py `_hash_id`: sha256 of the UTF-8 bytes, first
four digest bytes as a big-endian integer, four base-36 digits taken least
significant first. -/
def _hash_id (entry_id : String) : String :=
  let digest := sha256 (utf8Bytes entry_id)
  let num := (digest.getD 0 0) <<< 24 ||| (digest.getD 1 0) <<< 16 |||
             (digest.getD 2 0) <<< 8 ||| digest.getD 3 0
  String.mk [base36Chars.getD (num % 36) ' ',
             base36Chars.getD (num / 36 % 36) ' ',
             base36Chars.getD (num / 1296 % 36) ' ',
             base36Chars.getD (num / 46656 % 36) ' ']

/-! ## Short ID cache (src/server.py lines 166-213)

The `_id_cache` OrderedDict (short_id to real entry_id) is modelled as a list
of pairs: the head is the oldest (least recently used) entry, the last element
the most recently used.  OrderedDict states always have pairwise distinct
keys; `NodupKeys` names that invariant where a theorem needs it. -/

abbrev Cache : Type := List (String × String)

def emptyCache : Cache := []

def cacheLen (c : Cache) : Nat := List.length c

/-- Models `_id_cache.get(k)` (None when the key is absent). -/
def cacheGet (c : Cache) (k : String) : Option String :=
  (List.find? (fun p => p.1 == k) c).map (fun p => p.2)

/-- Keys are pairwise distinct, as in every OrderedDict state. -/
def NodupKeys (c : Cache) : Prop := (List.map Prod.fst c).Nodup

instance (c : Cache) : Decidable (NodupKeys c) := by
  unfold NodupKeys; infer_instance

/-- Models `_id_cache[k] = v` followed by `_id_cache.move_to_end(k)`: the
entry for `k` (unique in an OrderedDict) is removed and `(k, v)` is appended
at the most-recently-used end. -/
def insertMRU (c : Cache) (k v : String) : Cache :=
  List.filter (fun p => p.1 != k) c ++ [(k, v)]

/-- Models `_id_cache.move_to_end(k)` alone, as done by `_resolve_id`. -/
def moveToEnd (c : Cache) (k : String) : Cache :=
  match cacheGet c k with
  | some v => insertMRU c k v
  | none => c

def MAX_CACHE_SIZE : Nat := 500

/-- The probe loop of `_assign_short_id` (lines 191-196): `for suffix in
range(1, 100)` tries `base + str(suffix)` and takes the first candidate whose
entry is missing, falsy (the empty string), or equal to `entry_id`; if the
loop exhausts all 99 suffixes without a break, `short` is left at `base`.
`fuel` counts the remaining iterations, `j` the current suffix. -/
def probeAux (c : Cache) (entry_id base : String) : Nat → Nat → String
  | 0, _ => base
  | fuel + 1, j =>
    let candidate := base ++ toString j
    match cacheGet c candidate with
    | none => candidate
    | some existing =>
      if existing = "" ∨ existing = entry_id then candidate
      else probeAux c entry_id base fuel (j + 1)

/-- The token `_assign_short_id` picks (lines 187-196) before touching the
cache: the base hash if its entry is missing, falsy, or already this
entry_id; otherwise the result of the probe loop.  (`if existing and existing
!= entry_id` - a cached empty string is falsy in Python, hence the `= ""`
disjunct.) -/
def chooseToken (c : Cache) (entry_id : String) : String :=
  let short := _hash_id entry_id
  match cacheGet c short with
  | none => short
  | some existing =>
    if existing = "" ∨ existing = entry_id then short
    else probeAux c entry_id short 99 1

/-- Port of `_assign_short_id` (lines 185-204): choose the token; if it is a
genuinely new key while the cache is at capacity, pop the oldest
`len(_id_cache) // 2` entries; then write the mapping and move it to the
most-recently-used end.  Returns the token and the updated cache. -/
def _assign_short_id (c : Cache) (entry_id : String) : String × Cache :=
  let short := chooseToken c entry_id
  let c1 := if cacheGet c short = none ∧ MAX_CACHE_SIZE ≤ cacheLen c
            then List.drop (cacheLen c / 2) c else c
  (short, insertMRU c1 short entry_id)

/-- Port of `_resolve_id` (lines 207-213): a cache hit returns the mapped
entry_id and marks it most recently used; a miss passes the input through
unchanged.  Returns the resolved string and the updated cache. -/
def _resolve_id (c : Cache) (id_str : String) : String × Cache :=
  match cacheGet c id_str with
  | some real_id => (real_id, moveToEnd c id_str)
  | none => (id_str, c)

/-! ## Probe lemmas -/

/-- Token `tok` is currently bound to a truthy reference other than `r`, so
the probe loop of `_assign_short_id` must skip it. -/
def takenByOther (c : Cache) (tok r : String) : Bool :=
  match cacheGet c tok with
  | some e => !(e == "") && !(e == r)
  | none => false

/-- Current binding of the token that `chooseToken` picks for `r`: the claim
that assign and resolve behave collision-safely presupposes that the probe
finds a candidate that is unused or already owned by r (the source falls through
and overwrites otherwise). -/
def freshOrOwn (c : Cache) (r : String) : Bool :=
  match cacheGet c (chooseToken c r) with
  | none => true
  | some e => e == r

/-! ## Concrete witness states -/

/-- Key of length `i`, used to build a full cache with trivially distinct keys. -/
def c4key (i : Nat) : String := String.mk (List.replicate i 'x')

/-- A cache at the 500-entry capacity limit. -/
def c4cache : Cache := (List.range 500).map (fun i => (c4key i, "v"))

/-- A cache in which "c3ref" holds only its suffixed token while the base
token "99mp" (= `_hash_id "c3ref"`) is bound to another reference. -/
def c3wit : Cache := [("99mp", "zz"), ("99mp1", "c3ref")]

/-- A cache in which the base token "2tkk" (= `_hash_id "c10ref"`) and all 99
suffixed candidates are bound to other references. -/
def c10cache : Cache :=
  ("2tkk", "x0") :: (List.range' 1 99).map (fun j => ("2tkk" ++ toString j, "x" ++ toString j))

/-! ## URL shortener

`_shorten_urls` is imported from the server module by src/test_server.py
(line 18) and exercised by test_read_item_url, but its body is not present in
src/server.py; it is modelled here from the spec. -/

/-- Split a character list at every separator matching `p` (structural
equivalent of String.split / str.split with a one-character separator; the
accumulator holds the current fragment reversed). -/
def splitCharsAux (p : Char → Bool) : List Char → List Char → List String
  | [], acc => [String.mk acc.reverse]
  | c :: cs, acc =>
    if p c then String.mk acc.reverse :: splitCharsAux p cs []
    else splitCharsAux p cs (c :: acc)

/-- Structural equivalent of `s.splitOn` with a single-character separator. -/
def splitOnChar (sep : Char) (s : String) : List String :=
  splitCharsAux (fun c => c == sep) s.data []

/-- Structural equivalent of `str.startswith` / String.startsWith. -/
def pyStartsWith (w pre : String) : Bool := List.isPrefixOf pre.data w.data

/-- Parse a nonempty all-digit character list as a decimal number
(structural equivalent of String.toNat?). -/
def parseNatDigits : List Char → Option Nat
  | [] => none
  | l =>
    if l.all (fun c => c.isDigit) then
      some (l.foldl (fun acc c => acc * 10 + (c.toNat - 48)) 0)
    else none

/-- The apostrophe character, written by code point. -/
def sqc : Char := Char.ofNat 39

/-- A single apostrophe as a string (the quote of the DASL dialect). -/
def sq : String := String.singleton sqc

/-- Trailing characters the shortener strips from a URL match: closing
parenthesis, sentence punctuation, and quote marks. -/
def TRAILING_PUNCT : List Char := [')', '.', ',', ';', ':', '!', '?', '"', sqc]

/-- Modelled from the spec (§4.3): split a whitespace-delimited match into the
cleaned URL and the stripped trailing punctuation, which is preserved after
the replacement. -/
def stripTrailing (w : String) : String × String :=
  let rev := w.data.reverse
  let tail := rev.takeWhile (fun ch => TRAILING_PUNCT.contains ch)
  let core := rev.dropWhile (fun ch => TRAILING_PUNCT.contains ch)
  (String.mk core.reverse, String.mk tail.reverse)

/-- The fixed URL length threshold of the spec (§4.3). -/
def URL_MAX : Nat := 80

/-- Modelled from the spec (§4.3): one whitespace-delimited word of the text.
A word with an http(s) scheme is cleaned of trailing punctuation; if the
cleaned URL is at most 80 characters it is left untouched, otherwise it is
registered in the cache via assign and replaced by a bracketed
`[url:TOKEN]` placeholder followed by the preserved punctuation. -/
def shortenWord (c : Cache) (w : String) : String × Cache :=
  if pyStartsWith w "http://" || pyStartsWith w "https://" then
    let cp := stripTrailing w
    if cp.1.length ≤ URL_MAX then (w, c)
    else
      let tc := _assign_short_id c cp.1
      ("[url:" ++ tc.1 ++ "]" ++ cp.2, tc.2)
  else (w, c)

def shortenWords (c : Cache) : List String → List String × Cache
  | [] => ([], c)
  | w :: ws =>
    let wc := shortenWord c w
    let rest := shortenWords wc.2 ws
    (wc.1 :: rest.1, rest.2)

/-- Python str.join on a list of fragments. -/
def pyJoin (sep : String) : List String → String
  | [] => ""
  | [x] => x
  | x :: xs => x ++ sep ++ pyJoin sep xs

/-- Split a character list into maximal runs of whitespace characters and of
non-whitespace characters, each run as a string; the runs partition the text,
so concatenating them restores it.  The accumulator holds the current run
reversed. -/
def splitRunsAux : List Char → List Char → List String
  | [], acc => if acc.isEmpty then [] else [String.mk acc.reverse]
  | c :: cs, acc =>
    match acc with
    | [] => splitRunsAux cs [c]
    | a :: _ =>
      if a.isWhitespace = c.isWhitespace then splitRunsAux cs (c :: acc)
      else String.mk acc.reverse :: splitRunsAux cs [c]

/-- The maximal whitespace / non-whitespace runs of a string, in order. -/
def splitRuns (text : String) : List String := splitRunsAux text.data []

/-- Modelled from the spec (§4.3): `_shorten_urls` scans the text for
http(s) substrings delimited by whitespace (of any kind: the text is cut
into maximal whitespace and non-whitespace runs), transforms each run
through `shortenWord` (whitespace runs never carry an http scheme and pass
through unchanged), threading the reference cache, and reassembles the text
by concatenating the transformed runs. -/
def _shorten_urls (c : Cache) (text : String) : String × Cache :=
  let wc := shortenWords c (splitRuns text)
  (pyJoin "" wc.1, wc.2)

/-- The over-long URL of test_read_item_url (src/test_server.py line 183). -/
def testUrl : String := "https://example.com/" ++ String.mk (List.replicate 100 'x')

/-- The spec example URL of §8: "https://example.com/" ++ 90 repetitions. -/
def specUrl : String := "https://example.com/" ++ String.mk (List.replicate 90 'a')

/-! ## Dates (models datetime.strptime("%Y-%m-%d"), timedelta(days=1), and
strftime("%m/%d/%Y 00:00") as used by the filter builders) -/

structure Date where
  year : Nat
  month : Nat
  day : Nat
deriving DecidableEq

def isLeap (y : Nat) : Bool := y % 4 == 0 && (!(y % 100 == 0) || y % 400 == 0)

def monthLength (y m : Nat) : Nat :=
  if m = 2 then (if isLeap y then 29 else 28)
  else if m = 4 ∨ m = 6 ∨ m = 9 ∨ m = 11 then 30
  else 31

def ValidDate (d : Date) : Prop :=
  1 ≤ d.year ∧ 1 ≤ d.month ∧ d.month ≤ 12 ∧ 1 ≤ d.day ∧ d.day ≤ monthLength d.year d.month

instance (d : Date) : Decidable (ValidDate d) := by
  unfold ValidDate; infer_instance

/-- Models `datetime.strptime(s, "%Y-%m-%d")`: dash-separated decimal fields
(`%Y` matches exactly four digits, `%m` and `%d` one or two), validated
against the Gregorian calendar with year at least 1 (datetime.MINYEAR);
`none` models the ValueError raised on bad input. -/
def strptimeYMD (s : String) : Option Date :=
  match splitOnChar '-' s with
  | [ys, ms, ds] =>
    match parseNatDigits ys.data, parseNatDigits ms.data, parseNatDigits ds.data with
    | some y, some m, some d =>
      if ys.length = 4 ∧ 1 ≤ ms.length ∧ ms.length ≤ 2
          ∧ 1 ≤ ds.length ∧ ds.length ≤ 2 ∧ ValidDate ⟨y, m, d⟩
      then some ⟨y, m, d⟩ else none
    | _, _, _ => none
  | _ => none

/-- Models `+ timedelta(days=1)`: the next Gregorian calendar day. -/
def nextDay (d : Date) : Date :=
  if d.day < monthLength d.year d.month then ⟨d.year, d.month, d.day + 1⟩
  else if d.month < 12 then ⟨d.year, d.month + 1, 1⟩
  else ⟨d.year + 1, 1, 1⟩

def pad2 (n : Nat) : String := if n < 10 then "0" ++ toString n else toString n

/-- Models `.strftime("%m/%d/%Y 00:00")` on a midnight datetime. -/
def strftimeMDY00 (d : Date) : String :=
  pad2 d.month ++ "/" ++ pad2 d.day ++ "/" ++ toString d.year ++ " 00:00"

/-- A local timestamp: a calendar date plus minutes past local midnight. -/
structure DT where
  date : Date
  minutes : Nat
deriving DecidableEq

def ValidDT (t : DT) : Prop := ValidDate t.date ∧ t.minutes < 1440

instance (t : DT) : Decidable (ValidDT t) := by
  unfold ValidDT; infer_instance

/-- Chronological strict order on dates (year, then month, then day). -/
def dateLt (a b : Date) : Prop :=
  a.year < b.year ∨ (a.year = b.year
    ∧ (a.month < b.month ∨ (a.month = b.month ∧ a.day < b.day)))

def dateLe (a b : Date) : Prop :=
  a.year < b.year ∨ (a.year = b.year
    ∧ (a.month < b.month ∨ (a.month = b.month ∧ a.day ≤ b.day)))

def dtLe (s t : DT) : Prop :=
  dateLt s.date t.date ∨ (s.date = t.date ∧ s.minutes ≤ t.minutes)

def dtLt (s t : DT) : Prop :=
  dateLt s.date t.date ∨ (s.date = t.date ∧ s.minutes < t.minutes)

instance (s t : DT) : Decidable (dtLe s t) := by
  unfold dtLe dateLt; exact instDecidableOr

instance (s t : DT) : Decidable (dtLt s t) := by
  unfold dtLt dateLt; exact instDecidableOr

/-! ## DASL filter builder (src/server.py lines 220-271)

All literal single quotes are written via `sq` (the apostrophe string). -/

def dqs (s : String) : String := "\"" ++ s ++ "\""

def likePat (w : String) : String := sq ++ "%" ++ w ++ "%" ++ sq

/-- Models Python str.replace doubling each single quote for the dialect. -/
def pyReplaceQuotes (s : String) : String :=
  String.mk ((s.data.map (fun ch => if ch = sqc then [sqc, sqc] else [ch])).flatten)

/-- Models `str.split()` with no arguments: split on whitespace runs and
drop empty fragments. -/
def pySplit (s : String) : List String :=
  (splitCharsAux (fun ch => ch.isWhitespace) s.data []).filter (fun w => w ≠ "")

/-- The `date_from` condition (lines 232-235): inclusive `>=` bound at that
midnight of that day; a malformed date models the strptime ValueError. -/
def datePartFrom (date_from : String) : Except String (List String) :=
  if date_from = "" then .ok []
  else match strptimeYMD date_from with
    | some dt =>
        .ok [dqs "urn:schemas:httpmail:date" ++ " >= " ++ sq ++ strftimeMDY00 dt ++ sq]
    | none => .error "ValueError"

/-- The `date_to` condition (lines 236-239): exclusive `<` bound at midnight
of the following day (`+ timedelta(days=1)`); for 9999-12-31 the addition
leaves datetime.MAXYEAR and raises OverflowError, modelled as an error. -/
def datePartTo (date_to : String) : Except String (List String) :=
  if date_to = "" then .ok []
  else match strptimeYMD date_to with
    | some dt =>
        if (nextDay dt).year ≤ 9999 then
          .ok [dqs "urn:schemas:httpmail:date" ++ " < " ++ sq
            ++ strftimeMDY00 (nextDay dt) ++ sq]
        else .error "OverflowError"
    | none => .error "ValueError"

/-- Port of `_build_dasl_filter` (lines 223-271): each supplied condition
contributes one part, all parts are joined with AND under an `@SQL=` marker,
and no conditions at all yield the empty string. -/
def _build_dasl_filter (query date_from date_to sender to_ : String)
    (is_read : Option Bool) : Except String String :=
  match datePartFrom date_from with
  | .error e => .error e
  | .ok p1 =>
    match datePartTo date_to with
    | .error e => .error e
    | .ok p2 =>
      let p3 := if query ≠ "" then
          let safe := pyReplaceQuotes query
          ["(" ++ dqs "urn:schemas:httpmail:subject" ++ " ci_phrasematch "
            ++ sq ++ safe ++ sq
            ++ " OR " ++ dqs "urn:schemas:httpmail:textdescription"
            ++ " ci_phrasematch " ++ sq ++ safe ++ sq ++ ")"]
        else []
      let p4 := if sender ≠ "" then
          let words := pySplit (pyReplaceQuotes sender)
          if words.length = 1 then
            let w := words.getD 0 ""
            ["(" ++ dqs "urn:schemas:httpmail:sendername" ++ " LIKE " ++ likePat w
              ++ " OR " ++ dqs "urn:schemas:httpmail:fromemail" ++ " LIKE "
              ++ likePat w ++ ")"]
          else
            ["(" ++ pyJoin " AND " (words.map (fun w =>
                dqs "urn:schemas:httpmail:sendername" ++ " LIKE " ++ likePat w)) ++ ")"]
        else []
      let p5 := if to_ ≠ "" then
          let words := pySplit (pyReplaceQuotes to_)
          ["(" ++ pyJoin " AND " (words.map (fun w =>
              dqs "urn:schemas:httpmail:displayto" ++ " LIKE " ++ likePat w)) ++ ")"]
        else []
      let p6 := match is_read with
        | some b => [dqs "urn:schemas:httpmail:read" ++ " = " ++ (if b then "1" else "0")]
        | none => []
      let parts := p1 ++ p2 ++ p3 ++ p4 ++ p5 ++ p6
      if parts = [] then .ok ""
      else .ok ("@SQL=" ++ pyJoin " AND " parts)

/-! ## Search tools, up to their store hand-off (src/server.py lines 490-668)

The COM store interaction that follows the compiled filter is external to
this embedding; each tool is modelled up to the query/restriction string it
hands to the store, with errors as `Except.error`. -/

/-- Validation prelude and filter compilation of `search_emails`
(lines 520-527); parameters the store interaction consumes are kept for
signature fidelity but unused here. -/
def search_emails (query _folder sender to_ date_from date_to : String)
    (_include_archive : Bool) (is_read : Option Bool) (_earliest_first : Bool)
    (_max_results : Int) : Except String String :=
  if date_to ≠ "" ∧ date_from = "" then
    .error "date_from is required when date_to is specified."
  else
    _build_dasl_filter query date_from date_to sender to_ is_read

def RESPONSE_STATUS_values : List String :=
  ["none", "organized", "tentative", "accepted", "declined", "not_responded"]

/-- Validation prelude, date defaulting, and Restrict-string construction of
`search_calendar` (lines 589-619).  `today` stands for
`datetime.now().strftime("%Y-%m-%d")`, the clock being external; the
`+ timedelta(days=1)` OverflowError past datetime.MAXYEAR is an error. -/
def search_calendar (date_from date_to query response : String)
    (_earliest_first : Bool) (_max_results : Int) (today : String) :
    Except String String :=
  if date_to ≠ "" ∧ date_from = "" then
    .error "date_from is required when date_to is specified."
  else if response ≠ "" ∧ ¬RESPONSE_STATUS_values.contains response.toLower then
    .error ("Unknown response " ++ sq ++ response ++ sq)
  else
    let df := if date_from = "" then today else date_from
    let dt := if date_to = "" then df else date_to
    match strptimeYMD df, strptimeYMD dt with
    | some sd, some ed =>
        if (nextDay ed).year ≤ 9999 then
          .ok ("[Start] >= " ++ sq ++ strftimeMDY00 sd ++ sq ++ " AND [Start] < " ++ sq
            ++ strftimeMDY00 (nextDay ed) ++ sq
            ++ " AND [MeetingStatus] <> 5 AND [MeetingStatus] <> 7")
        else .error "OverflowError"
    | _, _ => .error "ValueError"

/-! ## Cache lemmas -/

theorem find?_filter_of_imp {α : Type} (p q : α → Bool) (l : List α)
    (h : ∀ x, p x = true → q x = true) :
    List.find? p (List.filter q l) = List.find? p l := by
  induction l with
  | nil => rfl
  | cons a t ih =>
    by_cases hq : q a = true
    · by_cases hp : p a = true
      · simp [List.filter_cons, List.find?_cons, hq, hp]
      · simp only [List.filter_cons, hq, if_pos, List.find?_cons] at *
        simp [hp, ih]
    · have hp : p a ≠ true := fun hpa => hq (h a hpa)
      simp only [List.filter_cons, hq, if_neg, List.find?_cons] at *
      simp [Bool.not_eq_true] at hp
      simp [hp, ih]

theorem cacheGet_insertMRU_self (c : Cache) (k v : String) :
    cacheGet (insertMRU c k v) k = some v := by
  unfold cacheGet insertMRU
  rw [List.find?_append]
  have hnone : List.find? (fun p => p.1 == k) (List.filter (fun p => p.1 != k) c) = none := by
    rw [List.find?_eq_none]
    intro x hx
    have hmem := (List.mem_filter.mp hx).2
    simp only [bne_iff_ne, ne_eq] at hmem
    simp [hmem]
  rw [hnone]
  simp

theorem cacheGet_insertMRU_ne (c : Cache) (k v k2 : String) (h : k2 ≠ k) :
    cacheGet (insertMRU c k v) k2 = cacheGet c k2 := by
  unfold cacheGet insertMRU
  rw [List.find?_append]
  rw [find?_filter_of_imp (fun p => p.1 == k2) (fun p => p.1 != k) c]
  · cases hf : List.find? (fun p => p.1 == k2) c with
    | none => simp [Option.or, List.find?_cons, h, (by simpa using Ne.symm h : (k == k2) = false)]
    | some x => simp [Option.or]
  · intro x hx
    have : x.1 = k2 := by simpa using hx
    simp [this, h]

/-- C1: resolve applied to the token just returned by assign yields the
assigned reference (the adjacent-call round-trip; no other cache operation,
hence no eviction, happens between the two calls). -/
theorem resolve_assign_roundtrip (c : Cache) (r : String) :
    (_resolve_id (_assign_short_id c r).2 (_assign_short_id c r).1).1 = r := by
  unfold _assign_short_id _resolve_id
  simp only [cacheGet_insertMRU_self]

theorem cacheGet_eq_none_iff (c : Cache) (k : String) :
    cacheGet c k = none ↔ ∀ x ∈ c, ¬x.1 = k := by
  unfold cacheGet
  rw [Option.map_eq_none']
  rw [List.find?_eq_none]
  simp

theorem insertMRU_length_of_absent (c : Cache) (k v : String)
    (h : cacheGet c k = none) :
    cacheLen (insertMRU c k v) = cacheLen c + 1 := by
  unfold cacheLen insertMRU
  rw [List.length_append]
  have hself : List.filter (fun p => p.1 != k) c = c := by
    rw [List.filter_eq_self]
    intro a ha
    have := (cacheGet_eq_none_iff c k).mp h a ha
    simpa using this
  rw [hself]
  simp

theorem insertMRU_length_of_present (c : Cache) (k v : String)
    (hnd : NodupKeys c) (h : cacheGet c k ≠ none) :
    cacheLen (insertMRU c k v) = cacheLen c := by
  unfold cacheLen insertMRU
  rw [List.length_append]
  induction c with
  | nil => simp [cacheGet] at h
  | cons a t ih =>
    unfold NodupKeys at hnd
    rw [List.map_cons, List.nodup_cons] at hnd
    by_cases hak : a.1 = k
    · have htfull : List.filter (fun p => p.1 != k) t = t := by
        rw [List.filter_eq_self]
        intro x hx
        have hxmem : x.1 ∈ List.map Prod.fst t := List.mem_map_of_mem Prod.fst hx
        have hxk : x.1 ≠ k := by
          intro hxe
          rw [hxe, ← hak] at hxmem
          exact hnd.1 hxmem
        simpa using hxk
      rw [List.filter_cons_of_neg (by simp [hak]), htfull]
      simp
    · have hget : cacheGet t k ≠ none := by
        unfold cacheGet at h ⊢
        rw [List.find?_cons] at h
        have hbe : (a.1 == k) = false := by simpa using hak
        simpa [hbe] using h
      rw [List.filter_cons_of_pos (by simp [hak])]
      have := ih (by unfold NodupKeys; exact hnd.2) hget
      simp only [List.length_cons, List.length_singleton] at this ⊢
      omega

theorem moveToEnd_length (c : Cache) (k : String) (hnd : NodupKeys c) :
    cacheLen (moveToEnd c k) = cacheLen c := by
  unfold moveToEnd
  cases hg : cacheGet c k with
  | none => rfl
  | some v => exact insertMRU_length_of_present c k v hnd (by simp [hg])

theorem insertMRU_length_le (c : Cache) (k v : String) :
    cacheLen (insertMRU c k v) ≤ cacheLen c + 1 := by
  unfold cacheLen insertMRU
  rw [List.length_append]
  have := List.length_filter_le (fun p => p.1 != k) c
  simpa using this

theorem nodupKeys_drop (c : Cache) (n : Nat) (hnd : NodupKeys c) :
    NodupKeys (List.drop n c) := by
  unfold NodupKeys at *
  rw [List.map_drop]
  exact (List.drop_sublist n (List.map Prod.fst c)).nodup hnd

/-- C4: at or above capacity (500 entries), an assign whose chosen token is
new first pops the oldest `n / 2` entries and then inserts, leaving
`n - n / 2 + 1` entries, all of them the most recently used ones; an assign
whose chosen token is already cached evicts nothing; and starting at or below
capacity, neither assign nor resolve ever leaves more than 500 entries. -/
theorem assign_eviction (c : Cache) (r s : String) (hnd : NodupKeys c) :
    (MAX_CACHE_SIZE ≤ cacheLen c → cacheGet c (chooseToken c r) = none →
      (_assign_short_id c r).2
          = insertMRU (List.drop (cacheLen c / 2) c) (chooseToken c r) r
      ∧ cacheLen (_assign_short_id c r).2 = cacheLen c - cacheLen c / 2 + 1)
    ∧ (cacheGet c (chooseToken c r) ≠ none →
        cacheLen (_assign_short_id c r).2 = cacheLen c)
    ∧ (cacheLen c ≤ MAX_CACHE_SIZE →
        cacheLen (_assign_short_id c r).2 ≤ MAX_CACHE_SIZE)
    ∧ cacheLen (_resolve_id c s).2 = cacheLen c := by
  refine ⟨?_, ?_, ?_, ?_⟩
  · intro h500 hnew
    simp only [_assign_short_id]
    rw [if_pos ⟨hnew, h500⟩]
    refine ⟨rfl, ?_⟩
    have habs : cacheGet (List.drop (cacheLen c / 2) c) (chooseToken c r) = none := by
      rw [cacheGet_eq_none_iff] at hnew ⊢
      intro x hx
      exact hnew x (List.mem_of_mem_drop hx)
    rw [insertMRU_length_of_absent _ _ _ habs]
    unfold cacheLen
    rw [List.length_drop]
  · intro hpresent
    simp only [_assign_short_id]
    have hcond : ¬(cacheGet c (chooseToken c r) = none ∧ MAX_CACHE_SIZE ≤ cacheLen c) := by
      intro hc
      exact hpresent hc.1
    rw [if_neg hcond]
    exact insertMRU_length_of_present c (chooseToken c r) r hnd hpresent
  · intro hle
    simp only [_assign_short_id]
    by_cases hc : cacheGet c (chooseToken c r) = none ∧ MAX_CACHE_SIZE ≤ cacheLen c
    · rw [if_pos hc]
      have habs : cacheGet (List.drop (cacheLen c / 2) c) (chooseToken c r) = none := by
        rw [cacheGet_eq_none_iff] at hc ⊢
        intro x hx
        exact hc.1 x (List.mem_of_mem_drop hx)
      rw [insertMRU_length_of_absent _ _ _ habs]
      have hdl : cacheLen (List.drop (cacheLen c / 2) c) = cacheLen c - cacheLen c / 2 :=
        List.length_drop _ _
      rw [hdl]
      have h500 := hc.2
      unfold MAX_CACHE_SIZE at *
      omega
    · rw [if_neg hc]
      by_cases hpresent : cacheGet c (chooseToken c r) = none
      · rw [insertMRU_length_of_absent _ _ _ hpresent]
        have : ¬MAX_CACHE_SIZE ≤ cacheLen c := fun hge => hc ⟨hpresent, hge⟩
        unfold MAX_CACHE_SIZE at *
        omega
      · rw [insertMRU_length_of_present c (chooseToken c r) r hnd hpresent]
        exact hle
  · unfold _resolve_id
    cases hg : cacheGet c s with
    | none => rfl
    | some v =>
      simp only []
      exact moveToEnd_length c s hnd

theorem probeAux_exhausted (c : Cache) (r b : String) (fuel j : Nat)
    (h : ∀ i, j ≤ i → i < j + fuel → takenByOther c (b ++ toString i) r = true) :
    probeAux c r b fuel j = b := by
  induction fuel generalizing j with
  | zero => rfl
  | succ n ih =>
    have hj := h j le_rfl (by omega)
    unfold takenByOther at hj
    simp only [probeAux]
    cases hg : cacheGet c (b ++ toString j) with
    | none => rw [hg] at hj; simp at hj
    | some e =>
      rw [hg] at hj
      have hne : ¬(e = "" ∨ e = r) := by
        simp only [Bool.and_eq_true, Bool.not_eq_true', beq_eq_false_iff_ne, ne_eq] at hj
        tauto
      simp only [hg]
      rw [if_neg hne]
      exact ih (j + 1) (fun i h1 h2 => h i (by omega) (by omega))

theorem probeAux_finds (c : Cache) (r b : String) (fuel j k : Nat)
    (hjk : j ≤ k) (hfuel : k < j + fuel)
    (hblock : ∀ i, j ≤ i → i < k → takenByOther c (b ++ toString i) r = true)
    (hk : cacheGet c (b ++ toString k) = some r) :
    probeAux c r b fuel j = b ++ toString k := by
  induction fuel generalizing j with
  | zero => omega
  | succ n ih =>
    by_cases hj : j = k
    · subst hj
      simp [probeAux, hk]
    · have hbj := hblock j le_rfl (by omega)
      unfold takenByOther at hbj
      simp only [probeAux]
      cases hg : cacheGet c (b ++ toString j) with
      | none => rw [hg] at hbj; simp at hbj
      | some e =>
        rw [hg] at hbj
        have hne : ¬(e = "" ∨ e = r) := by
          simp only [Bool.and_eq_true, Bool.not_eq_true', beq_eq_false_iff_ne, ne_eq] at hbj
          tauto
        simp only [hg]
        rw [if_neg hne]
        exact ih (j + 1) (by omega) (by omega) (fun i h1 h2 => hblock i (by omega) h2)

theorem chooseToken_of_base_absent (c : Cache) (r : String)
    (h : cacheGet c (_hash_id r) = none) : chooseToken c r = _hash_id r := by
  simp only [chooseToken, h]

theorem chooseToken_of_base_own (c : Cache) (r : String)
    (h : cacheGet c (_hash_id r) = some r) : chooseToken c r = _hash_id r := by
  simp [chooseToken, h]

theorem countP_key_split (p : String × String → Bool) (b : String) (c : Cache) :
    List.countP p c
      = List.countP (fun x => p x && (x.1 == b)) c
        + List.countP (fun x => p x && (x.1 != b)) c := by
  induction c with
  | nil => rfl
  | cons a t ih =>
    by_cases hp : p a = true <;> by_cases hq : a.1 = b <;>
      simp [List.countP_cons, hp, hq, ih] <;> omega

theorem cacheGet_some_mem (c : Cache) (k v : String) (h : cacheGet c k = some v) :
    ∃ x ∈ c, x.1 = k ∧ x.2 = v := by
  unfold cacheGet at h
  cases hf : List.find? (fun p => p.1 == k) c with
  | none => rw [hf] at h; simp at h
  | some x =>
    rw [hf] at h
    refine ⟨x, List.mem_of_find?_eq_some hf, ?_, ?_⟩
    · have := List.find?_some hf
      simpa using this
    · simpa using h

/-- C10: when the base token and all 99 suffixed candidates are taken by
other (truthy) references, `_assign_short_id` neither raises nor reports
exhaustion: the probe loop falls through with `short` still the base token,
whose entry is silently overwritten with `r`; if the base entry held the only
occurrence of its old reference `r0`, that reference is no longer reachable
through the cache. -/
theorem assign_exhaustion_overwrites (c : Cache) (r r0 : String)
    (h1 : cacheGet c (_hash_id r) = some r0)
    (h2 : (!(r0 == "") && !(r0 == r)) = true)
    (h3 : (List.range' 1 99).all
        (fun j => takenByOther c (_hash_id r ++ toString j) r) = true)
    (h4 : List.countP (fun x => x.2 == r0) c = 1) :
    (_assign_short_id c r).1 = _hash_id r
    ∧ (_assign_short_id c r).2 = insertMRU c (_hash_id r) r
    ∧ (_resolve_id (_assign_short_id c r).2 (_hash_id r)).1 = r
    ∧ List.countP (fun x => x.2 == r0) (_assign_short_id c r).2 = 0 := by
  have hr0 : r0 ≠ "" ∧ r0 ≠ r := by
    simp only [Bool.and_eq_true, Bool.not_eq_true', beq_eq_false_iff_ne, ne_eq] at h2
    exact h2
  have hct : chooseToken c r = _hash_id r := by
    simp only [chooseToken, h1]
    rw [if_neg (by tauto)]
    apply probeAux_exhausted
    intro i hi1 hi2
    have := List.all_eq_true.mp h3 i (List.mem_range'_1.mpr ⟨hi1, by omega⟩)
    exact this
  have hstate : (_assign_short_id c r).2 = insertMRU c (_hash_id r) r := by
    simp only [_assign_short_id, hct]
    rw [if_neg (by simp [h1])]
  have htok : (_assign_short_id c r).1 = _hash_id r := by
    simp only [_assign_short_id, hct]
  refine ⟨htok, hstate, ?_, ?_⟩
  · rw [hstate]
    simp only [_resolve_id, cacheGet_insertMRU_self]
  · rw [hstate]
    obtain ⟨x, hxmem, hxk, hxv⟩ := cacheGet_some_mem c (_hash_id r) r0 h1
    have hge : 0 < List.countP (fun x => (x.2 == r0) && (x.1 == _hash_id r)) c := by
      rw [List.countP_pos]
      exact ⟨x, hxmem, by simp [hxk, hxv]⟩
    have hsplit := countP_key_split (fun x => x.2 == r0) (_hash_id r) c
    have hzero : List.countP (fun x => (x.2 == r0) && (x.1 != _hash_id r)) c = 0 := by
      omega
    unfold insertMRU
    rw [List.countP_append, List.countP_filter]
    rw [hzero]
    have hrne : r ≠ r0 := fun he => hr0.2 he.symm
    simp [List.countP_cons, hrne]

/-- C3 (amended): re-assigning a reference returns the token it currently
holds when every token probed before that one is still bound to another
truthy reference: if the base token maps to `r`, assign returns the base
token; if `r` holds the suffixed token base+k while the base and all suffixes
below k are taken by other references, assign returns base+k.  (Without that
proviso the claim fails, see the counterexample.) -/
theorem assign_reuses_token (c : Cache) (r : String) (k : Nat) :
    (cacheGet c (_hash_id r) = some r → (_assign_short_id c r).1 = _hash_id r)
    ∧ (1 ≤ k → k ≤ 99 →
        cacheGet c (_hash_id r ++ toString k) = some r →
        takenByOther c (_hash_id r) r = true →
        (∀ j, 1 ≤ j → j < k → takenByOther c (_hash_id r ++ toString j) r = true) →
        (_assign_short_id c r).1 = _hash_id r ++ toString k) := by
  constructor
  · intro h
    simp only [_assign_short_id, chooseToken_of_base_own c r h]
  · intro hk1 hk99 hget hbase hblock
    have hct : chooseToken c r = _hash_id r ++ toString k := by
      unfold takenByOther at hbase
      cases hg : cacheGet c (_hash_id r) with
      | none => rw [hg] at hbase; simp at hbase
      | some e =>
        rw [hg] at hbase
        have hne : ¬(e = "" ∨ e = r) := by
          simp only [Bool.and_eq_true, Bool.not_eq_true', beq_eq_false_iff_ne, ne_eq] at hbase
          tauto
        simp only [chooseToken, hg]
        rw [if_neg hne]
        exact probeAux_finds c r (_hash_id r) 99 1 k hk1 (by omega)
          (fun i h1 h2 => hblock i h1 h2) hget
    simp only [_assign_short_id, hct]

/-- C3 (counterexample): the reference "c3ref" holds its suffixed token
"99mp1" (= `_hash_id "c3ref" ++ "1"`), which has not been evicted, yet
re-assigning "c3ref" returns the bare base token "99mp" instead, because the
entry for the base token is gone (as after a capacity eviction). -/
theorem assign_not_idempotent :
    _hash_id "c3ref" = "99mp"
    ∧ cacheGet [("99mp1", "c3ref")] "99mp1" = some "c3ref"
    ∧ (_assign_short_id [("99mp1", "c3ref")] "c3ref").1 = "99mp"
    ∧ ("99mp" = "99mp1" → False) := by
  refine ⟨rfl, rfl, rfl, ?_⟩
  intro h
  have := congrArg String.length h
  simp [String.length] at this

theorem cacheGet_drop_insertMRU (c : Cache) (k v : String) (m : Nat)
    (hm : m ≤ (List.filter (fun p => p.1 != k) c).length) :
    cacheGet (List.drop m (insertMRU c k v)) k = some v := by
  unfold insertMRU cacheGet
  rw [List.drop_append_of_le_length hm]
  rw [List.find?_append]
  have hnone : List.find? (fun p => p.1 == k)
      (List.drop m (List.filter (fun p => p.1 != k) c)) = none := by
    rw [List.find?_eq_none]
    intro x hx
    have := (List.mem_filter.mp (List.mem_of_mem_drop hx)).2
    simp only [bne_iff_ne, ne_eq] at this
    simp [this]
  rw [hnone]
  simp

/-- Dropping up to all-but-one entries after an assign keeps the just
assigned mapping: the new entry sits at the most-recently-used end. -/
theorem cacheGet_assign_self_after_drop (c : Cache) (r : String) (m : Nat)
    (hm : m + 1 ≤ cacheLen (_assign_short_id c r).2) :
    cacheGet (List.drop m (_assign_short_id c r).2) (_assign_short_id c r).1 = some r := by
  simp only [_assign_short_id] at hm ⊢
  apply cacheGet_drop_insertMRU
  simp only [insertMRU, cacheLen, List.length_append] at hm
  simpa using hm

/-- C2: two distinct references whose 4-character base-36 hashes collide get
distinct tokens — the second via the suffix probe — and afterwards each
token resolves to its own reference (provided the probe finds a candidate
that is unused or already owned by the second reference, as the probing
description of the claim presupposes; eviction triggered by the second assign
cannot remove the first token, which is the most recent entry). -/
theorem collision_safety (c : Cache) (r1 r2 : String)
    (hne : r1 ≠ r2)
    (hhash : _hash_id r1 = _hash_id r2)
    (hfresh : freshOrOwn (_assign_short_id c r1).2 r2 = true) :
    (_assign_short_id c r1).1 ≠ (_assign_short_id (_assign_short_id c r1).2 r2).1
    ∧ (_resolve_id (_assign_short_id (_assign_short_id c r1).2 r2).2
        (_assign_short_id c r1).1).1 = r1
    ∧ (_resolve_id (_assign_short_id (_assign_short_id c r1).2 r2).2
        (_assign_short_id (_assign_short_id c r1).2 r2).1).1 = r2 := by
  set c1 : Cache := (_assign_short_id c r1).2 with hc1def
  have hstate1 : cacheGet c1 (_assign_short_id c r1).1 = some r1 := by
    simp only [hc1def, _assign_short_id]
    exact cacheGet_insertMRU_self _ _ _
  have htok2 : (_assign_short_id c1 r2).1 = chooseToken c1 r2 := rfl
  have htokne : (_assign_short_id c r1).1 ≠ (_assign_short_id c1 r2).1 := by
    intro he
    unfold freshOrOwn at hfresh
    rw [htok2] at he
    rw [← he, hstate1] at hfresh
    have : r1 = r2 := by simpa using hfresh
    exact hne this
  refine ⟨htokne, ?_, ?_⟩
  · have hget : cacheGet (_assign_short_id c1 r2).2 (_assign_short_id c r1).1
        = some r1 := by
      have hne2 : chooseToken c r1 ≠ chooseToken c1 r2 := htokne
      simp only [_assign_short_id]
      rw [cacheGet_insertMRU_ne _ _ _ _ hne2]
      by_cases hev : cacheGet c1 (chooseToken c1 r2) = none ∧ MAX_CACHE_SIZE ≤ cacheLen c1
      · rw [if_pos hev]
        have hm : cacheLen c1 / 2 + 1 ≤ cacheLen (_assign_short_id c r1).2 := by
          rw [← hc1def]
          unfold MAX_CACHE_SIZE at hev
          omega
        have hkey := cacheGet_assign_self_after_drop c r1 (cacheLen c1 / 2) hm
        rw [hc1def]
        exact hkey
      · rw [if_neg hev]
        exact hstate1
    simp only [_resolve_id, hget]
  · simp only [_assign_short_id, _resolve_id, cacheGet_insertMRU_self]

theorem c4key_inj : Function.Injective c4key := by
  intro a b h
  have hl : List.replicate a 'x' = List.replicate b 'x' := by
    have h2 := h
    unfold c4key at h2
    exact congrArg String.data h2
  have := congrArg List.length hl
  simpa using this

theorem c4cache_nodup : NodupKeys c4cache := by
  unfold NodupKeys c4cache
  rw [List.map_map]
  have he : (Prod.fst ∘ fun i => (c4key i, "v")) = c4key := rfl
  rw [he]
  exact (List.nodup_range 500).map c4key_inj

theorem c4key_ne (i : Nat) : c4key i ≠ "t13n" := by
  intro h
  have hd : List.replicate i 'x' = "t13n".data := congrArg String.data h
  have hmem : ('t' : Char) ∈ List.replicate i 'x' := by
    rw [hd]
    decide
  have := List.eq_of_mem_replicate hmem
  exact absurd this (by decide)

theorem c4cache_absent : cacheGet c4cache "t13n" = none := by
  rw [cacheGet_eq_none_iff]
  intro x hx
  unfold c4cache at hx
  obtain ⟨i, _, hxe⟩ := List.mem_map.mp hx
  rw [← hxe]
  exact c4key_ne i

theorem c4cache_len : cacheLen c4cache = 500 := by
  unfold cacheLen c4cache
  rw [List.length_map, List.length_range]

/-- C4 witness: a concrete at-capacity cache for which assigning a fresh
reference pops the oldest 250 entries and leaves 251. -/
theorem assign_eviction_witness :
    NodupKeys c4cache ∧ cacheLen c4cache = 500
    ∧ cacheGet c4cache (chooseToken c4cache "c4ref") = none
    ∧ cacheLen (_assign_short_id c4cache "c4ref").2 = 251
    ∧ (_assign_short_id c4cache "c4ref").2
        = insertMRU (List.drop 250 c4cache) "t13n" "c4ref" := by
  have hnd := c4cache_nodup
  have hlen := c4cache_len
  have hct : chooseToken c4cache "c4ref" = "t13n" := by
    have e : _hash_id "c4ref" = "t13n" := rfl
    have habs : cacheGet c4cache (_hash_id "c4ref") = none := by
      rw [e]
      exact c4cache_absent
    rw [chooseToken_of_base_absent _ _ habs]
    exact e
  have hnew : cacheGet c4cache (chooseToken c4cache "c4ref") = none := by
    rw [hct]
    exact c4cache_absent
  have h500 : MAX_CACHE_SIZE ≤ cacheLen c4cache := by
    rw [hlen]
    decide
  have key := (assign_eviction c4cache "c4ref" "s" hnd).1 h500 hnew
  refine ⟨hnd, hlen, hnew, ?_, ?_⟩
  · rw [key.2, hlen]
  · rw [key.1, hct, hlen]

/-- C3 witness: in `c3wit` the reference holds its suffixed token and the
base is blocked by another reference, so assign returns the suffixed token. -/
theorem assign_reuses_token_witness :
    cacheGet c3wit "99mp1" = some "c3ref"
    ∧ takenByOther c3wit "99mp" "c3ref" = true
    ∧ (_assign_short_id c3wit "c3ref").1 = "99mp1" := by
  have e : _hash_id "c3ref" = "99mp" := rfl
  have h1 : cacheGet c3wit (_hash_id "c3ref" ++ toString 1) = some "c3ref" := by
    rw [e]
    rfl
  have h2 : takenByOther c3wit (_hash_id "c3ref") "c3ref" = true := by
    rw [e]
    rfl
  have key := (assign_reuses_token c3wit "c3ref" 1).2 (le_refl 1) (by norm_num) h1 h2
      (fun j hj1 hj2 => absurd hj2 (Nat.not_lt.mpr hj1))
  refine ⟨rfl, ?_, ?_⟩
  · rw [← e]
    exact h2
  · rw [key, e]
    rfl

/-- C10 witness: with the base and all 99 suffixes taken by other references,
assigning "c10ref" silently reuses the base token "2tkk" and the reference
"x0" previously held there disappears from the cache. -/
theorem assign_exhaustion_witness :
    cacheGet c10cache "2tkk" = some "x0"
    ∧ (_assign_short_id c10cache "c10ref").1 = "2tkk"
    ∧ List.countP (fun x => x.2 == "x0") (_assign_short_id c10cache "c10ref").2 = 0 := by
  have e : _hash_id "c10ref" = "2tkk" := rfl
  have h1 : cacheGet c10cache (_hash_id "c10ref") = some "x0" := by
    rw [e]
    rfl
  have h2 : (!(("x0" : String) == "") && !(("x0" : String) == "c10ref")) = true := by
    decide
  have h3 : (List.range' 1 99).all
      (fun j => takenByOther c10cache (_hash_id "c10ref" ++ toString j) "c10ref") = true := by
    simp only [e]
    decide
  have h4 : List.countP (fun x => x.2 == "x0") c10cache = 1 := by
    decide
  have key := assign_exhaustion_overwrites c10cache "c10ref" "x0" h1 h2 h3 h4
  refine ⟨by rw [← e]; exact h1, ?_, key.2.2.2⟩
  rw [key.1, e]

/-- C2 witness: "ref1488" and "ref1651" are distinct references with the
same 4-character base-36 hash "34iu"; assigning both from an empty cache
yields distinct tokens, each resolving to its own reference. -/
theorem collision_safety_witness :
    _hash_id "ref1488" = _hash_id "ref1651"
    ∧ freshOrOwn (_assign_short_id emptyCache "ref1488").2 "ref1651" = true
    ∧ (_assign_short_id emptyCache "ref1488").1
        ≠ (_assign_short_id (_assign_short_id emptyCache "ref1488").2 "ref1651").1
    ∧ (_resolve_id (_assign_short_id (_assign_short_id emptyCache "ref1488").2 "ref1651").2
        (_assign_short_id emptyCache "ref1488").1).1 = "ref1488"
    ∧ (_resolve_id (_assign_short_id (_assign_short_id emptyCache "ref1488").2 "ref1651").2
        (_assign_short_id (_assign_short_id emptyCache "ref1488").2 "ref1651").1).1
        = "ref1651" := by
  have hh : _hash_id "ref1488" = _hash_id "ref1651" := rfl
  have hf : freshOrOwn (_assign_short_id emptyCache "ref1488").2 "ref1651" = true := rfl
  have hne : "ref1488" ≠ "ref1651" := by decide
  have key := collision_safety emptyCache "ref1488" "ref1651" hne hh hf
  exact ⟨hh, hf, key.1, key.2.1, key.2.2⟩

/-- C5 (failing input): `_resolve_id` resolves a bare cached token, but it
does not strip the `url:` marker test_read_item_url relies on: with the
test URL cached under its token "d218", the input "url:d218" misses the
cache and is passed through unchanged instead of resolving to the URL. -/
theorem resolve_does_not_strip_url_marker :
    _hash_id testUrl = "d218"
    ∧ (_assign_short_id emptyCache testUrl).2 = [("d218", testUrl)]
    ∧ (_resolve_id [("d218", testUrl)] "d218").1 = testUrl
    ∧ (_resolve_id [("d218", testUrl)] ("url:" ++ "d218")).1 = "url:" ++ "d218"
    ∧ ("url:" ++ "d218" : String) ≠ testUrl := by
  refine ⟨rfl, rfl, rfl, rfl, ?_⟩
  intro h
  have h2 : ("url:" ++ "d218" : String).length = testUrl.length := congrArg String.length h
  have e1 : ("url:" ++ "d218" : String).length = 8 := rfl
  have e2 : testUrl.length = 120 := rfl
  rw [e1, e2] at h2
  exact absurd h2 (by decide)

/-- The word the stateful fold `shortenWords` emits at position `i` is the
word-transform of the input word at `i`, applied at the cache state reached
after the first `i` words. -/
theorem shortenWords_getD (ws : List String) (c : Cache) (i : Nat)
    (hi : i < ws.length) :
    (shortenWords c ws).1.getD i ""
      = (shortenWord ((shortenWords c (ws.take i)).2) (ws.getD i "")).1 := by
  induction ws generalizing c i with
  | nil => simp at hi
  | cons w ws ih =>
    cases i with
    | zero => rfl
    | succ j =>
      have hj : j < ws.length := by simpa using hi
      simp only [shortenWords, List.take_succ_cons, List.getD_cons_succ]
      exact ih (shortenWord c w).2 j hj

/-- C6: for every input text, cut into its maximal whitespace and
non-whitespace runs: a run carrying an http(s) scheme whose cleaned URL is
at most 80 characters is left untouched at its position in the output, and
one whose cleaned URL is longer is replaced at its position by `[url:TOKEN]`
followed by the stripped punctuation, where TOKEN is the token assigned to
the cleaned URL in the cache state current at that run, and resolving TOKEN
right after that registration yields the cleaned URL. -/
theorem shorten_urls_threshold (c cmid : Cache) (text w : String) (i : Nat)
    (hi : i < (splitRuns text).length)
    (hweq : (splitRuns text).getD i "" = w)
    (hcmid : (shortenWords c ((splitRuns text).take i)).2 = cmid)
    (hw : (pyStartsWith w "http://" || pyStartsWith w "https://") = true) :
    _shorten_urls c text
      = (pyJoin "" (shortenWords c (splitRuns text)).1,
         (shortenWords c (splitRuns text)).2)
    ∧ ((stripTrailing w).1.length ≤ 80 →
        (shortenWords c (splitRuns text)).1.getD i "" = w)
    ∧ (80 < (stripTrailing w).1.length →
        (shortenWords c (splitRuns text)).1.getD i ""
          = "[url:" ++ (_assign_short_id cmid (stripTrailing w).1).1 ++ "]"
            ++ (stripTrailing w).2
        ∧ (_resolve_id (_assign_short_id cmid (stripTrailing w).1).2
            (_assign_short_id cmid (stripTrailing w).1).1).1
            = (stripTrailing w).1) := by
  have hpos : (shortenWords c (splitRuns text)).1.getD i ""
      = (shortenWord cmid w).1 := by
    rw [shortenWords_getD (splitRuns text) c i hi, hweq, hcmid]
  refine ⟨rfl, ?_, ?_⟩
  · intro hle
    rw [hpos]
    unfold shortenWord
    rw [if_pos hw]
    simp only []
    rw [if_pos (by unfold URL_MAX; exact hle)]
  · intro hgt
    have hno : ¬((stripTrailing w).1.length ≤ URL_MAX) := by
      unfold URL_MAX
      omega
    have hstate : shortenWord cmid w
        = ("[url:" ++ (_assign_short_id cmid (stripTrailing w).1).1 ++ "]"
            ++ (stripTrailing w).2,
           (_assign_short_id cmid (stripTrailing w).1).2) := by
      unfold shortenWord
      rw [if_pos hw]
      simp only []
      rw [if_neg hno]
    refine ⟨?_, ?_⟩
    · rw [hpos, hstate]
    · simp only [_assign_short_id, _resolve_id, cacheGet_insertMRU_self]

/-- C6 witness: the spec example with a newline delimiter. In
`"See\n" ++ specUrl ++ "."` the runs are `["See", newline, URL-word]`; the
over-long URL word (index 2) becomes `[url:9ata].`, the whole text becomes
`"See\n[url:9ata]."`, the cache maps "9ata" to the cleaned URL, resolving
"9ata" returns it, and the short URL in `"See https://example.com/ ok"`
(cleaned length 20) is left untouched. -/
theorem shorten_urls_threshold_witness :
    (splitRuns ("See\n" ++ specUrl ++ ".")).getD 2 "" = specUrl ++ "."
    ∧ (shortenWords emptyCache ((splitRuns ("See\n" ++ specUrl ++ ".")).take 2)).2
        = emptyCache
    ∧ (pyStartsWith (specUrl ++ ".") "http://"
        || pyStartsWith (specUrl ++ ".") "https://") = true
    ∧ (stripTrailing (specUrl ++ ".")).1 = specUrl
    ∧ 80 < specUrl.length
    ∧ (shortenWords emptyCache (splitRuns ("See\n" ++ specUrl ++ "."))).1.getD 2 ""
        = "[url:9ata]."
    ∧ _shorten_urls emptyCache ("See\n" ++ specUrl ++ ".")
        = ("See\n[url:9ata].", [("9ata", specUrl)])
    ∧ (_resolve_id [("9ata", specUrl)] "9ata").1 = specUrl
    ∧ _shorten_urls emptyCache "See https://example.com/ ok"
        = ("See https://example.com/ ok", emptyCache) := by
  have hi : 2 < (splitRuns ("See\n" ++ specUrl ++ ".")).length := by decide
  have hweq : (splitRuns ("See\n" ++ specUrl ++ ".")).getD 2 "" = specUrl ++ "." := rfl
  have hcmid : (shortenWords emptyCache
      ((splitRuns ("See\n" ++ specUrl ++ ".")).take 2)).2 = emptyCache := rfl
  have hw : (pyStartsWith (specUrl ++ ".") "http://"
      || pyStartsWith (specUrl ++ ".") "https://") = true := rfl
  have hclean : (stripTrailing (specUrl ++ ".")).1 = specUrl := rfl
  have hlen : 80 < (stripTrailing (specUrl ++ ".")).1.length := by
    rw [hclean]
    decide
  have key := (shorten_urls_threshold emptyCache emptyCache
      ("See\n" ++ specUrl ++ ".") (specUrl ++ ".") 2 hi hweq hcmid hw).2.2 hlen
  refine ⟨hweq, hcmid, hw, hclean, by decide, ?_, rfl, rfl, ?_⟩
  · rw [key.1]
    rfl
  · have hi2 : 2 < (splitRuns "See https://example.com/ ok").length := by decide
    have hweq2 : (splitRuns "See https://example.com/ ok").getD 2 ""
        = "https://example.com/" := rfl
    have hcmid2 : (shortenWords emptyCache
        ((splitRuns "See https://example.com/ ok").take 2)).2 = emptyCache := rfl
    have hw2 : (pyStartsWith "https://example.com/" "http://"
        || pyStartsWith "https://example.com/" "https://") = true := rfl
    have hshort := (shorten_urls_threshold emptyCache emptyCache
        "See https://example.com/ ok" "https://example.com/" 2
        hi2 hweq2 hcmid2 hw2).2.1 (by decide)
    rfl

theorem nextDay_le_iff (d e : Date) (hd : ValidDate d) (he : ValidDate e) :
    dateLt d e ↔ dateLe (nextDay d) e := by
  obtain ⟨dy, dm, dd⟩ := d
  obtain ⟨ey, em, ed⟩ := e
  obtain ⟨hd0, hd1, hd2, hd3, hd4⟩ := hd
  obtain ⟨he0, he1, he2, he3, he4⟩ := he
  simp only at hd0 hd1 hd2 hd3 hd4 he0 he1 he2 he3 he4
  unfold nextDay dateLt dateLe
  by_cases h1 : dd < monthLength dy dm
  · rw [if_pos h1]
    dsimp only
    omega
  · rw [if_neg h1]
    by_cases h2 : dm < 12
    · rw [if_pos h2]
      dsimp only
      constructor
      · rintro (h | ⟨hy, h⟩)
        · omega
        · subst hy
          rcases h with h | ⟨hm, h⟩
          · omega
          · subst hm
            exfalso
            omega
      · rintro (h | ⟨hy, h⟩)
        · omega
        · omega
    · rw [if_neg h2]
      dsimp only
      constructor
      · rintro (h | ⟨hy, h⟩)
        · omega
        · subst hy
          rcases h with h | ⟨hm, h⟩
          · omega
          · subst hm
            exfalso
            omega
      · rintro (h | ⟨hy, h⟩)
        · omega
        · omega

theorem dateLt_nextDay (d : Date) (hd : ValidDate d) : dateLt d (nextDay d) := by
  obtain ⟨dy, dm, dd⟩ := d
  obtain ⟨h0, h1, h2, h3, h4⟩ := hd
  unfold nextDay dateLt
  by_cases hc1 : dd < monthLength dy dm
  · rw [if_pos hc1]
    dsimp only
    omega
  · rw [if_neg hc1]
    by_cases hc2 : dm < 12
    · rw [if_pos hc2]
      dsimp only
      omega
    · rw [if_neg hc2]
      dsimp only
      omega

/-- A timestamp lies in `[d 00:00, nextDay d 00:00)` exactly when its
calendar date is `d`. -/
theorem day_range_iff (d : Date) (t : DT) (hd : ValidDate d) (ht : ValidDT t) :
    (dtLe ⟨d, 0⟩ t ∧ dtLt t ⟨nextDay d, 0⟩) ↔ t.date = d := by
  obtain ⟨htd, htm⟩ := ht
  unfold dtLe dtLt
  dsimp only
  constructor
  · rintro ⟨h1, h2⟩
    have h2x : dateLt t.date (nextDay d) := by
      rcases h2 with h | ⟨_, h⟩
      · exact h
      · omega
    rcases h1 with h | ⟨h, _⟩
    · exfalso
      have hle := (nextDay_le_iff d t.date hd htd).mp h
      unfold dateLe at hle
      unfold dateLt at h2x
      omega
    · exact h.symm
  · intro he
    refine ⟨Or.inr ⟨he.symm, Nat.zero_le _⟩, Or.inl ?_⟩
    rw [he]
    exact dateLt_nextDay d hd

theorem strptimeYMD_valid (s : String) (d : Date) (hp : strptimeYMD s = some d) :
    ValidDate d := by
  unfold strptimeYMD at hp
  split at hp
  · split at hp
    · split at hp
      · rename_i hcond
        cases hp
        exact hcond.2.2.2.2.2
      · exact Option.noConfusion hp
    · exact Option.noConfusion hp
  · exact Option.noConfusion hp

/-- C7: text_query "budget" with sender "Alice Smith" compiles to a single
expression holding a subject-OR-body phrase-match clause on budget AND a
two-word AND clause over the sender-name field only (no sender-address check
in the multi-word case); no arguments at all compile to the empty string. -/
theorem filter_compiler_combination :
    _build_dasl_filter "budget" "" "" "Alice Smith" "" none
      = .ok ("@SQL=(\"urn:schemas:httpmail:subject\" ci_phrasematch "
        ++ sq ++ "budget" ++ sq
        ++ " OR \"urn:schemas:httpmail:textdescription\" ci_phrasematch "
        ++ sq ++ "budget" ++ sq
        ++ ") AND (\"urn:schemas:httpmail:sendername\" LIKE "
        ++ sq ++ "%Alice%" ++ sq
        ++ " AND \"urn:schemas:httpmail:sendername\" LIKE "
        ++ sq ++ "%Smith%" ++ sq ++ ")")
    ∧ _build_dasl_filter "" "" "" "" "" none = .ok "" := by
  constructor
  · rfl
  · rfl

theorem not_dateLt_iff (a b : Date) : ¬dateLt a b ↔ dateLe b a := by
  obtain ⟨ay, am, ad⟩ := a
  obtain ⟨cy, cm, cd⟩ := b
  unfold dateLt dateLe
  dsimp only
  omega

theorem not_dateLe_iff (a b : Date) : ¬dateLe a b ↔ dateLt b a := by
  obtain ⟨ay, am, ad⟩ := a
  obtain ⟨cy, cm, cd⟩ := b
  unfold dateLt dateLe
  dsimp only
  omega

theorem dateLe_asymm (a b : Date) (h1 : dateLe a b) (h2 : dateLt b a) : False := by
  obtain ⟨ay, am, ad⟩ := a
  obtain ⟨cy, cm, cd⟩ := b
  unfold dateLe at h1
  unfold dateLt at h2
  dsimp only at h1 h2
  omega

/-- The inclusive `>=` bound at midnight of `d` holds of a timestamp exactly
when its calendar date is at least `d`. -/
theorem dtLe_midnight_iff (d : Date) (t : DT) :
    dtLe ⟨d, 0⟩ t ↔ dateLe d t.date := by
  obtain ⟨dy, dm, dd⟩ := d
  obtain ⟨⟨ty, tm, td⟩, tmin⟩ := t
  unfold dtLe dateLt dateLe
  dsimp only
  simp only [Date.mk.injEq]
  omega

/-- The exclusive `<` bound at midnight of the day after `d2` holds of a
timestamp exactly when its calendar date is at most `d2` (the whole end day
is included). -/
theorem dtLt_midnight_iff (d2 : Date) (t : DT)
    (hd2 : ValidDate d2) (htd : ValidDate t.date) :
    dtLt t ⟨nextDay d2, 0⟩ ↔ dateLe t.date d2 := by
  have h1 := nextDay_le_iff d2 t.date hd2 htd
  have h2 : dtLt t ⟨nextDay d2, 0⟩ ↔ dateLt t.date (nextDay d2) := by
    unfold dtLt
    dsimp only
    constructor
    · rintro (h | ⟨_, h⟩)
      · exact h
      · omega
    · exact Or.inl
  rw [h2]
  constructor
  · intro h
    by_contra hco
    have h3 : dateLt d2 t.date := (not_dateLe_iff t.date d2).mp hco
    have h4 : dateLe (nextDay d2) t.date := h1.mp h3
    exact dateLe_asymm (nextDay d2) t.date h4 h
  · intro h
    by_contra hco
    have h3 : dateLe (nextDay d2) t.date := (not_dateLt_iff t.date (nextDay d2)).mp hco
    have h4 : dateLt d2 t.date := h1.mpr h3
    exact dateLe_asymm t.date d2 h h4

/-- C8: for every pair of well-formed dates, the compiled filter holds an
inclusive `>=` clause at the local midnight of the start date and an
exclusive `<` clause at the local midnight of the day after the end date
(`+ timedelta(days=1)`); a valid timestamp satisfies both bounds exactly
when its calendar date lies between the two dates inclusive, so the same
date given as both bounds matches exactly the items timestamped on that
day.  (The bound `hov` excludes 9999-12-31, on which the source raises
OverflowError instead of compiling a filter.) -/
theorem date_range_exclusive (s1 s2 : String) (d1 d2 : Date) (t : DT)
    (hp1 : strptimeYMD s1 = some d1) (hp2 : strptimeYMD s2 = some d2)
    (hov : (nextDay d2).year ≤ 9999) (ht : ValidDT t) :
    _build_dasl_filter "" s1 s2 "" "" none
      = .ok ("@SQL=\"urn:schemas:httpmail:date\" >= " ++ sq ++ strftimeMDY00 d1 ++ sq
        ++ " AND " ++ "\"urn:schemas:httpmail:date\" < " ++ sq
        ++ strftimeMDY00 (nextDay d2) ++ sq)
    ∧ ((dtLe ⟨d1, 0⟩ t ∧ dtLt t ⟨nextDay d2, 0⟩)
        ↔ (dateLe d1 t.date ∧ dateLe t.date d2))
    ∧ (d1 = d2 → ((dtLe ⟨d1, 0⟩ t ∧ dtLt t ⟨nextDay d1, 0⟩) ↔ t.date = d1)) := by
  have hval1 := strptimeYMD_valid s1 d1 hp1
  have hval2 := strptimeYMD_valid s2 d2 hp2
  have hs1 : s1 ≠ "" := by
    intro h
    subst h
    exact Option.noConfusion hp1
  have hs2 : s2 ≠ "" := by
    intro h
    subst h
    exact Option.noConfusion hp2
  refine ⟨?_, ?_, ?_⟩
  · simp only [_build_dasl_filter, datePartFrom, datePartTo, if_neg hs1, if_neg hs2,
      hp1, hp2]
    rw [if_pos hov]
    simp [pyJoin, dqs, ← String.append_assoc]
  · rw [dtLe_midnight_iff d1 t, dtLt_midnight_iff d2 t hval2 ht.1]
  · intro he
    subst he
    exact day_range_iff d1 t hval1 ht

/-- C8 witness: both bounds "2025-01-01"; the filter bounds are 01/01/2025
00:00 inclusive and 01/02/2025 00:00 exclusive, and the timestamp
2025-01-01 10:00 lies in the range, which by the diagonal case matches
exactly day 2025-01-01. -/
theorem date_range_exclusive_witness :
    strptimeYMD "2025-01-01" = some ⟨2025, 1, 1⟩
    ∧ (nextDay ⟨2025, 1, 1⟩).year ≤ 9999
    ∧ ValidDT ⟨⟨2025, 1, 1⟩, 600⟩
    ∧ _build_dasl_filter "" "2025-01-01" "2025-01-01" "" "" none
      = .ok ("@SQL=\"urn:schemas:httpmail:date\" >= " ++ sq ++ "01/01/2025 00:00" ++ sq
        ++ " AND " ++ "\"urn:schemas:httpmail:date\" < " ++ sq ++ "01/02/2025 00:00" ++ sq)
    ∧ (dtLe ⟨⟨2025, 1, 1⟩, 0⟩ ⟨⟨2025, 1, 1⟩, 600⟩
        ∧ dtLt ⟨⟨2025, 1, 1⟩, 600⟩ ⟨nextDay ⟨2025, 1, 1⟩, 0⟩) := by
  have hp : strptimeYMD "2025-01-01" = some ⟨2025, 1, 1⟩ := rfl
  have hov : (nextDay (⟨2025, 1, 1⟩ : Date)).year ≤ 9999 := by decide
  have ht : ValidDT ⟨⟨2025, 1, 1⟩, 600⟩ := by decide
  have key := date_range_exclusive "2025-01-01" "2025-01-01" ⟨2025, 1, 1⟩ ⟨2025, 1, 1⟩
      ⟨⟨2025, 1, 1⟩, 600⟩ hp hp hov ht
  refine ⟨hp, hov, ht, ?_, (key.2.2 rfl).mpr rfl⟩
  rw [key.1]
  rfl

/-- C9: in both the email and the calendar search, a supplied date_to with
no date_from is rejected with a ValueError before any filter is compiled or
the store is touched. -/
theorem reject_dateTo_without_dateFrom
    (query folder sender to_ date_to : String) (ia : Bool) (ir : Option Bool)
    (ef : Bool) (mr : Int) (response today : String) (ef2 : Bool) (mr2 : Int)
    (h1 : date_to ≠ "") :
    search_emails query folder sender to_ "" date_to ia ir ef mr
      = .error "date_from is required when date_to is specified."
    ∧ search_calendar "" date_to query response ef2 mr2 today
      = .error "date_from is required when date_to is specified." := by
  constructor
  · unfold search_emails
    rw [if_pos ⟨h1, rfl⟩]
  · unfold search_calendar
    rw [if_pos ⟨h1, rfl⟩]

/-- C9 witness: date_to "2025-12-31" with date_from empty is rejected by
both tools. -/
theorem reject_dateTo_without_dateFrom_witness :
    ("2025-12-31" : String) ≠ ""
    ∧ search_emails "" "inbox" "" "" "" "2025-12-31" false none false 20
      = .error "date_from is required when date_to is specified."
    ∧ search_calendar "" "2025-12-31" "" "" true 20 "2025-06-15"
      = .error "date_from is required when date_to is specified." := by
  have h1 : ("2025-12-31" : String) ≠ "" := by decide
  have key := reject_dateTo_without_dateFrom "" "inbox" "" "" "2025-12-31"
      false none false 20 "" "2025-06-15" true 20 h1
  exact ⟨h1, key.1, key.2⟩

end OutlookMCP
